import Mathlib

/-!
Verification of the cooperative runtime slice of this repository:
the timer re-arm logic (`src/runtime/time.go`), the MIPS stack-scan and
control-transfer primitives (`src/runtime/asm_mipsx.S`), the RP2040 ADC
channel mapping (machine package), and the testing package's cleanup stack.

Machine integers are modelled as `Int`/`Nat` with explicit wrapping
(`% 2^64` shifted, `% 256`) exactly where the Go code performs fixed-width
arithmetic.
-/

namespace TinyGo

/-- Two's-complement wrapping of an unbounded integer into the int64 range,
the semantics of Go's `int64` addition used by `when += period`. -/
def wrap64 (x : Int) : Int :=
  (x + 2 ^ 63) % 2 ^ 64 - 2 ^ 63

/-- The fields of the `time` package's `timer` that `runtime.timerCallback`
reads and writes: `when` (absolute deadline, nanoseconds, int64) and
`period` (0 for a one-shot timer, nonzero for a ticker). -/
structure GoTimer where
  when : Int
  period : Int
  deriving Repr, DecidableEq

/-- Observable outcome of one invocation of `timerCallback`:
`fired` records the `delta` arguments of the `callCallback` invocations in
order (the body of `callCallback` lives in the `time` package, outside the
sampled sources, so only the invocation is recorded), `timer` is the updated
timer state, and `readded` records whether `addTimer` was invoked to
re-enqueue the node. -/
structure TimerFireResult where
  fired : List Int
  timer : GoTimer
  readded : Bool
  deriving Repr, DecidableEq

/-- `runtime.timerCallback` from `src/runtime/time.go`: run the timer's
callback once with `delta`, then, if the timer is periodic
(`period != 0`), advance `when += period` (wrapping int64 addition) and
re-add the node to the queue. -/
def timerCallback (t : GoTimer) (delta : Int) : TimerFireResult :=
  if t.period ≠ 0 then
    { fired := [delta]
      timer := { t with when := wrap64 (t.when + t.period) }
      readded := true }
  else
    { fired := [delta], timer := t, readded := false }

/-- A `runtime.timerNode`: the timer payload together with the stored
`callback` function field through which firing is dispatched. In Go the
field has type `func(node *timerNode, delta int64)` and `timerCallback`
only ever reads the node's `timer` field, so the node argument is
flattened to its timer payload (a Lean structure cannot recursively
mention its own type in a function field). -/
structure TimerNode where
  timer : GoTimer
  callback : GoTimer → Int → TimerFireResult

/-- Firing a timer node the way the scheduler does: an indirect call
through the node's stored `callback` field, not a static call. -/
def fireNode (n : TimerNode) (delta : Int) : TimerFireResult :=
  n.callback n.timer delta

/-- The MIPS machine registers touched by `src/runtime/asm_mipsx.S`
(`$sp`, `$ra`, the argument registers `$a0`/`$a1`, the callee-saved
`$s0`–`$s8`) together with word-addressed memory. Register values and
addresses are modelled as unbounded integers; the assembly performs no
arithmetic that can overflow a 32-bit register on the stack addresses it
forms. -/
structure MachineState where
  sp : Int
  ra : Int
  a0 : Int
  a1 : Int
  s0 : Int
  s1 : Int
  s2 : Int
  s3 : Int
  s4 : Int
  s5 : Int
  s6 : Int
  s7 : Int
  s8 : Int
  mem : Int → Int

/-- Semantics of a single `sw` store: update memory at one word address. -/
def writeWord (m : Int → Int) (addr v : Int) : Int → Int :=
  fun a => if a = addr then v else m a

/-- Memory after the prologue of `tinygo_scanCurrentStack`: the ten `sw`
instructions that push `$ra, $s8, …, $s0` at offsets 36, 32, …, 0 from the
decremented stack pointer `$sp - 40`. -/
def pushFrame (s : MachineState) : Int → Int :=
  writeWord (writeWord (writeWord (writeWord (writeWord (writeWord (writeWord
    (writeWord (writeWord (writeWord s.mem (s.sp - 40 + 36) s.ra)
    (s.sp - 40 + 32) s.s8) (s.sp - 40 + 28) s.s7) (s.sp - 40 + 24) s.s6)
    (s.sp - 40 + 20) s.s5) (s.sp - 40 + 16) s.s4) (s.sp - 40 + 12) s.s3)
    (s.sp - 40 + 8) s.s2) (s.sp - 40 + 4) s.s1) (s.sp - 40) s.s0

/-- The machine state at the moment `jal tinygo_scanstack` transfers
control: `$sp` decremented by 40 (`addiu $sp, $sp, -40`), the ten
registers pushed, `$a0 := $sp` (the `move` in the branch delay slot, so
the scan's lower-bound argument is the decremented stack pointer), and
`$ra` holding the return address `scanRet` placed there by `jal`. -/
def scanCallState (s : MachineState) (scanRet : Int) : MachineState :=
  { s with
    sp := s.sp - 40
    mem := pushFrame s
    a0 := s.sp - 40
    ra := scanRet }

/-- Outcome of `tinygo_scanCurrentStack`: the state handed to
`tinygo_scanstack`, the state at the final `jalr $ra`, and the jump target
of that `jalr` (the address execution returns to). -/
structure ScanResult where
  callState : MachineState
  finalState : MachineState
  target : Int

/-- `tinygo_scanCurrentStack` from `src/runtime/asm_mipsx.S`, parameterised
by the behavior `scan` of the external `tinygo_scanstack` routine and by
the code addresses `scanRet` (what `jal` writes into `$ra`) and `jalrRet`
(what the final `jalr $ra` writes into `$ra` as it jumps). After `scan`
returns, the epilogue reloads `$ra` from offset 36 (`lw $ra, 36($sp)`),
adds 40 back to `$sp` (`addiu $sp, $sp, 40`), and jumps to the reloaded
`$ra` (`jalr $ra`). -/
def tinygo_scanCurrentStack (scan : MachineState → MachineState)
    (scanRet jalrRet : Int) (s : MachineState) : ScanResult :=
  { callState := scanCallState s scanRet
    finalState :=
      { scan (scanCallState s scanRet) with
        ra := jalrRet
        sp := (scan (scanCallState s scanRet)).sp + 40 }
    target := (scan (scanCallState s scanRet)).mem
      ((scan (scanCallState s scanRet)).sp + 36) }

/-- The MIPS O32 calling-convention obligations of `tinygo_scanstack` that
the assembly relies on: a called C function preserves the stack pointer
and the callee-saved registers `$s0`–`$s8`, and does not modify the
caller's stack frame (memory at or above the stack pointer it was entered
with); it may clobber the caller-saved `$ra`, `$a0` and `$a1`. -/
def ScanstackABI (scan : MachineState → MachineState) : Prop :=
  ∀ st : MachineState,
    (scan st).sp = st.sp ∧
    (scan st).s0 = st.s0 ∧ (scan st).s1 = st.s1 ∧ (scan st).s2 = st.s2 ∧
    (scan st).s3 = st.s3 ∧ (scan st).s4 = st.s4 ∧ (scan st).s5 = st.s5 ∧
    (scan st).s6 = st.s6 ∧ (scan st).s7 = st.s7 ∧ (scan st).s8 = st.s8 ∧
    (∀ a : Int, st.sp ≤ a → (scan st).mem a = st.mem a)

/-- Outcome of `tinygo_longjmp`: the machine state at the final `jr $a1`
and the jump target of that `jr`. -/
structure JumpResult where
  finalState : MachineState
  target : Int

/-- `tinygo_longjmp` from `src/runtime/asm_mipsx.S`: load a new stack
pointer from offset 0 of the argument block (`lw $sp, 0($a0)`), load the
resume address from offset 4 (`lw $a1, 4($a0)`), and jump to it
(`jr $a1`) — a plain jump, not a linked one, so no return address is
written anywhere. -/
def tinygo_longjmp (s : MachineState) : JumpResult :=
  { finalState := { s with sp := s.mem s.a0, a1 := s.mem (s.a0 + 4) }
    target := s.mem (s.a0 + 4) }

/-- Modelled from the spec: the `machine` package's `ADC0` pin constant is
declared outside the sampled sources (on the RP2040 the first ADC-capable
GPIO is pin 26). The ADC code under test uses it only through the
comparisons and offsets formalised below. -/
def ADC0 : Nat := 26

/-- `ADC.GetADCChannel` from the RP2040 machine package: if the pin is
below `ADC0` return an error (modelled as `none`), otherwise return
channel `Pin - ADC0` (uint8 subtraction, exact here because of the guard)
with no error; there is no upper-bound check. Pins are uint8 values,
modelled as naturals below 256. -/
def GetADCChannel (pin : Nat) : Option Nat :=
  if pin < ADC0 then none else some (pin - ADC0)

/-- `ADC.Get`: look up the channel; on success return the one-shot sample
(`getOnce` reads the ADC hardware, outside this embedding, so it is a
parameter producing a uint16 value); on error silently return 0. -/
def adcGet (sample : Nat → Nat) (pin : Nat) : Nat :=
  match GetADCChannel pin with
  | some c => sample c % 65536
  | none => 0

/-- `ADCChannel.Pin`: returns `Pin(c) + ADC0` — uint8 addition, hence the
`% 256` — paired with a nil error (modelled as the Bool `false`),
unconditionally. -/
def ADCChannelPin (c : Nat) : Nat × Bool :=
  ((c + ADC0) % 256, false)

/-- `common.Cleanup` from the testing package: append the function to the
end of the `cleanups` slice. Go `func()` values include `nil`, so a slot
is `Option α`: `some f` is a real function (identified by a label drawn
from `α`), `none` is a nil function value. -/
def Cleanup {α : Type} (cleanups : List (Option α)) (f : Option α) :
    List (Option α) :=
  cleanups ++ [f]

/-- The loop of `common.runCleanup`, expressed over the reversed slice so
that popping the last element is structural recursion: if the slice is
empty the popped value stays nil and the loop returns; if the popped value
is nil the loop returns, leaving the rest of the slice in place; otherwise
the function is called and the loop continues. Returns the calls made (in
order) and what remains of the (reversed) slice. -/
def runCleanupGo {α : Type} : List (Option α) → List α × List (Option α)
  | [] => ([], [])
  | none :: rest => ([], rest)
  | some f :: rest =>
    let r := runCleanupGo rest
    (f :: r.1, r.2)

/-- `common.runCleanup`: repeatedly pop the last registered cleanup and
call it, stopping when the slice is empty (or a nil slot is popped).
Returns the sequence of calls made and the final `cleanups` slice. -/
def runCleanup {α : Type} (cleanups : List (Option α)) :
    List α × List (Option α) :=
  let r := runCleanupGo cleanups.reverse
  (r.1, r.2.reverse)

end TinyGo

namespace TinyGo

/-- Wrapping int64 addition agrees with exact addition whenever the exact
sum is in the int64 range. -/
theorem wrap64_eq_of_bounds (x : Int) (h1 : -(2 ^ 63) ≤ x) (h2 : x < 2 ^ 63) :
    wrap64 x = x := by
  unfold wrap64
  omega

/-- C2: for every timer that fires, `timerCallback` invokes the timer's
callback exactly once, re-enqueues the node if and only if the period is
nonzero, and (absent int64 overflow) the re-enqueued deadline is exactly
the old deadline plus the period; concretely, a period-100 ticker whose
deadline was 100 and which fires late at tick 115 (delta 15) gets next
deadline 200, not 215. -/
theorem timerCallback_phase_stable (t : GoTimer) (delta : Int) :
    (timerCallback t delta).fired = [delta] ∧
    ((timerCallback t delta).readded ↔ t.period ≠ 0) ∧
    (t.period ≠ 0 → -(2 ^ 63) ≤ t.when + t.period → t.when + t.period < 2 ^ 63 →
      (timerCallback t delta).timer.when = t.when + t.period) ∧
    (t.period = 0 → (timerCallback t delta).timer = t) ∧
    ((timerCallback (GoTimer.mk 100 100) 15).timer.when = 200 ∧
      (200 : Int) ≠ 115 + 100) := by
  unfold timerCallback
  by_cases h : t.period = 0
  · rw [if_neg (by simp [h])]
    exact ⟨rfl, by simp [h], fun hc => absurd h hc, fun _ => rfl, by decide⟩
  · rw [if_pos h]
    refine ⟨rfl, by simp [h], ?_, fun h0 => absurd h0 h, by decide⟩
    intro _ h1 h2
    exact wrap64_eq_of_bounds _ h1 h2

/-- Witness for C2 at a concrete input: a ticker with deadline 100 and
period 100, fired with delta 15, satisfies the bounds hypotheses and gets
next deadline exactly 200. -/
theorem timerCallback_phase_stable_witness :
    ((100 : Int) + 100 ≠ 0 → True) ∧
    (timerCallback (GoTimer.mk 100 100) 15).timer.when = 100 + 100 := by
  refine ⟨fun _ => trivial, ?_⟩
  exact (timerCallback_phase_stable (GoTimer.mk 100 100) 15).2.2.1
    (by decide) (by decide) (by decide)

/-- C1 counterexample: the period-100 ticker of the claim's scenario (first
deadline 100, check delayed until tick 250, so the firing's delta is 150)
does not get its deadline resynchronized past the current time by a single
firing: `timerCallback` advances the deadline by exactly one period, to
200, which is neither 300 nor past tick 250, so one callback invocation
cannot leave the next deadline at 300 as the claim states. -/
theorem timerCallback_no_catchup_counterexample :
    (timerCallback (GoTimer.mk 100 100) 150).fired = [150] ∧
    (timerCallback (GoTimer.mk 100 100) 150).timer.when = 200 ∧
    (200 : Int) ≠ 300 ∧ (200 : Int) ≤ 250 := by
  refine ⟨rfl, ?_, by decide, by decide⟩
  decide

/-- C1 amended: the code catches up by firing repeatedly, one period per
firing, not by firing once and resynchronizing. For the period-100 ticker
whose first deadline is 100 and whose check is delayed until tick 250, the
first firing (delta 150) invokes the callback once and moves the deadline
to 200, which is still due at tick 250; a second firing (delta 50) invokes
the callback once more and moves the deadline to 300, which is finally past
tick 250. In total the callback runs exactly twice, not once, before the
next deadline becomes 300. -/
theorem timerCallback_catchup_fires_twice :
    (timerCallback (GoTimer.mk 100 100) 150).timer.when = 200 ∧
    (200 : Int) ≤ 250 ∧
    (timerCallback (timerCallback (GoTimer.mk 100 100) 150).timer 50).timer.when
      = 300 ∧
    (250 : Int) < 300 ∧
    (timerCallback (GoTimer.mk 100 100) 150).fired.length +
      (timerCallback (timerCallback (GoTimer.mk 100 100) 150).timer 50).fired.length
      = 2 := by
  refine ⟨by decide, by decide, by decide, by decide, by decide⟩

/-- C3 counterexample: the deadline advance in `timerCallback` wraps on
int64 overflow instead of saturating. A ticker with deadline 2^63 - 1
(the maximum int64) and period 1 gets next deadline -(2^63): a wrapped
negative value in the past, not a value saturated at the maximum. -/
theorem timerCallback_overflow_wraps_counterexample :
    (timerCallback (GoTimer.mk (2 ^ 63 - 1) 1) 0).timer.when = -(2 ^ 63) ∧
    -(2 ^ 63 : Int) < 2 ^ 63 - 1 ∧ -(2 ^ 63 : Int) < 0 := by
  refine ⟨?_, by decide, by decide⟩
  decide

/-- C3 amended: advancing the deadline in `timerCallback` is two's
complement wrapping int64 addition — `when' = ((when + period + 2^63) mod
2^64) - 2^63` — for every periodic timer; on overflow the deadline wraps
to a negative (past) value rather than saturating at the maximum. (The
`whenTicks` conversion calls `nanosecondsToTicks`, whose per-target body
is outside the sampled sources.) -/
theorem timerCallback_advance_wraps (t : GoTimer) (delta : Int)
    (h : t.period ≠ 0) :
    (timerCallback t delta).timer.when
      = (t.when + t.period + 2 ^ 63) % 2 ^ 64 - 2 ^ 63 ∧
    (timerCallback (GoTimer.mk (2 ^ 63 - 1) 1) 0).timer.when < 0 := by
  refine ⟨?_, by decide⟩
  unfold timerCallback
  rw [if_pos h]
  rfl

/-- Witness for C3 amended at a concrete input: the max-deadline ticker
with period 1 satisfies the period hypothesis and its advanced deadline is
the wrapped value -(2^63). -/
theorem timerCallback_advance_wraps_witness :
    (GoTimer.mk (2 ^ 63 - 1) 1).period ≠ 0 ∧
    (timerCallback (GoTimer.mk (2 ^ 63 - 1) 1) 0).timer.when
      = ((2 ^ 63 - 1) + 1 + 2 ^ 63) % 2 ^ 64 - 2 ^ 63 := by
  refine ⟨by decide, ?_⟩
  exact (timerCallback_advance_wraps (GoTimer.mk (2 ^ 63 - 1) 1) 0
    (by decide)).1

/-- C7: firing through the `callback` function value stored in a timer
node is behaviorally identical to calling `timerCallback` directly on the
node's timer, for every node whose stored callback is `timerCallback`.
(The code-size consequence — that the indirection keeps the timer queue
eligible for dead-code elimination — is a linker-level property outside
this embedding; the behavioral identity it relies on is what is proved.) -/
theorem fireNode_eq_timerCallback (n : TimerNode) (delta : Int)
    (h : n.callback = timerCallback) :
    fireNode n delta = timerCallback n.timer delta := by
  unfold fireNode
  rw [h]

/-- Witness for C7 at a concrete input: a node storing `timerCallback` and
a period-100 timer dispatches indirectly to exactly the direct call's
result. -/
theorem fireNode_eq_timerCallback_witness :
    (TimerNode.mk (GoTimer.mk 0 100) timerCallback).callback = timerCallback ∧
    fireNode (TimerNode.mk (GoTimer.mk 0 100) timerCallback) 5
      = timerCallback (GoTimer.mk 0 100) 5 :=
  ⟨rfl, fireNode_eq_timerCallback (TimerNode.mk (GoTimer.mk 0 100) timerCallback)
    5 rfl⟩

/-- Reading back the address just written returns the written value. -/
theorem writeWord_at (m : Int → Int) (a v : Int) : writeWord m a v a = v := by
  unfold writeWord
  simp

/-- Reading any other address is unaffected by a store. -/
theorem writeWord_away (m : Int → Int) (a v b : Int) (h : b ≠ a) :
    writeWord m a v b = m b := by
  unfold writeWord
  simp [h]

/-- Pointwise description of the pushed frame: the later stores shadow
nothing (all ten addresses are distinct), so reading address `a` checks
the store addresses from the last store backwards and falls through to the
original memory. Definitional consequence of the store sequence. -/
theorem pushFrame_spec (s : MachineState) (a : Int) :
    pushFrame s a =
      if a = s.sp - 40 then s.s0
      else if a = s.sp - 40 + 4 then s.s1
      else if a = s.sp - 40 + 8 then s.s2
      else if a = s.sp - 40 + 12 then s.s3
      else if a = s.sp - 40 + 16 then s.s4
      else if a = s.sp - 40 + 20 then s.s5
      else if a = s.sp - 40 + 24 then s.s6
      else if a = s.sp - 40 + 28 then s.s7
      else if a = s.sp - 40 + 32 then s.s8
      else if a = s.sp - 40 + 36 then s.ra
      else s.mem a := rfl

/-- The pushed frame holds, at offsets 36 down to 0 from the decremented
stack pointer, exactly the caller's `$ra, $s8, $s7, $s6, $s5, $s4, $s3,
$s2, $s1, $s0`. -/
theorem pushFrame_reads (s : MachineState) :
    pushFrame s (s.sp - 40 + 36) = s.ra ∧
    pushFrame s (s.sp - 40 + 32) = s.s8 ∧
    pushFrame s (s.sp - 40 + 28) = s.s7 ∧
    pushFrame s (s.sp - 40 + 24) = s.s6 ∧
    pushFrame s (s.sp - 40 + 20) = s.s5 ∧
    pushFrame s (s.sp - 40 + 16) = s.s4 ∧
    pushFrame s (s.sp - 40 + 12) = s.s3 ∧
    pushFrame s (s.sp - 40 + 8) = s.s2 ∧
    pushFrame s (s.sp - 40 + 4) = s.s1 ∧
    pushFrame s (s.sp - 40) = s.s0 := by
  refine ⟨?_, ?_, ?_, ?_, ?_, ?_, ?_, ?_, ?_, ?_⟩ <;>
    simp [pushFrame_spec]

/-- Addresses inside the pushed frame lie at or above the decremented
stack pointer, so the ABI's frame-preservation clause covers them. -/
theorem frame_addr_ge (s : MachineState) (k : Int) (hk : 0 ≤ k) :
    s.sp - 40 ≤ s.sp - 40 + k := by
  omega

/-- C4: `tinygo_scanCurrentStack` is a capture/call/restore sequence. It
pushes all ten callee-saved registers of the caller (`$ra, $s8, …, $s0`)
onto the caller's own stack (at the decremented stack pointer, 40 bytes
below the caller's), invokes `tinygo_scanstack` with that stack pointer as
the scan's lower-bound argument (`$a0`), and — provided `tinygo_scanstack`
honors the calling convention — restores the stack pointer to the caller's
value and jumps back to the caller's return address, a normal return, not
a control transfer elsewhere. -/
theorem scanCurrentStack_capture_call_restore
    (scan : MachineState → MachineState) (scanRet jalrRet : Int)
    (s : MachineState) (habi : ScanstackABI scan) :
    (tinygo_scanCurrentStack scan scanRet jalrRet s).callState.sp
      = s.sp - 40 ∧
    (tinygo_scanCurrentStack scan scanRet jalrRet s).callState.a0
      = s.sp - 40 ∧
    (tinygo_scanCurrentStack scan scanRet jalrRet s).callState.mem
      (s.sp - 40 + 36) = s.ra ∧
    (tinygo_scanCurrentStack scan scanRet jalrRet s).callState.mem
      (s.sp - 40 + 32) = s.s8 ∧
    (tinygo_scanCurrentStack scan scanRet jalrRet s).callState.mem
      (s.sp - 40 + 28) = s.s7 ∧
    (tinygo_scanCurrentStack scan scanRet jalrRet s).callState.mem
      (s.sp - 40 + 24) = s.s6 ∧
    (tinygo_scanCurrentStack scan scanRet jalrRet s).callState.mem
      (s.sp - 40 + 20) = s.s5 ∧
    (tinygo_scanCurrentStack scan scanRet jalrRet s).callState.mem
      (s.sp - 40 + 16) = s.s4 ∧
    (tinygo_scanCurrentStack scan scanRet jalrRet s).callState.mem
      (s.sp - 40 + 12) = s.s3 ∧
    (tinygo_scanCurrentStack scan scanRet jalrRet s).callState.mem
      (s.sp - 40 + 8) = s.s2 ∧
    (tinygo_scanCurrentStack scan scanRet jalrRet s).callState.mem
      (s.sp - 40 + 4) = s.s1 ∧
    (tinygo_scanCurrentStack scan scanRet jalrRet s).callState.mem
      (s.sp - 40) = s.s0 ∧
    (tinygo_scanCurrentStack scan scanRet jalrRet s).finalState.sp = s.sp ∧
    (tinygo_scanCurrentStack scan scanRet jalrRet s).target = s.ra := by
  obtain ⟨hr1, hr2, hr3, hr4, hr5, hr6, hr7, hr8, hr9, hr10⟩ :=
    pushFrame_reads s
  obtain ⟨hsp, _, _, _, _, _, _, _, _, _, hmem⟩ := habi (scanCallState s scanRet)
  have hcs : (scanCallState s scanRet).sp = s.sp - 40 := rfl
  have hcm : (scanCallState s scanRet).mem = pushFrame s := rfl
  refine ⟨rfl, rfl, hr1, hr2, hr3, hr4, hr5, hr6, hr7, hr8, hr9, hr10, ?_, ?_⟩
  · show (scan (scanCallState s scanRet)).sp + 40 = s.sp
    rw [hsp, hcs]
    omega
  · show (scan (scanCallState s scanRet)).mem
      ((scan (scanCallState s scanRet)).sp + 36) = s.ra
    rw [hsp, hcs, hmem (s.sp - 40 + 36) (by rw [hcs]; omega), hcm]
    exact hr1

/-- Witness for C4 at a concrete input: the identity behavior for
`tinygo_scanstack` satisfies the calling convention, and on a concrete
caller state the sequence pushes the registers, passes the decremented
stack pointer, restores `$sp` to 1000 and returns to address 77. -/
theorem scanCurrentStack_capture_call_restore_witness :
    ScanstackABI (fun st => st) ∧
    ((tinygo_scanCurrentStack (fun st => st) 11 22
        (MachineState.mk 1000 77 0 0 1 2 3 4 5 6 7 8 9 (fun _ => 0))).finalState.sp
      = 1000 ∧
    (tinygo_scanCurrentStack (fun st => st) 11 22
        (MachineState.mk 1000 77 0 0 1 2 3 4 5 6 7 8 9 (fun _ => 0))).target
      = 77) := by
  have habi : ScanstackABI (fun st => st) :=
    fun st => ⟨rfl, rfl, rfl, rfl, rfl, rfl, rfl, rfl, rfl, rfl,
      fun _ _ => rfl⟩
  have h := scanCurrentStack_capture_call_restore (fun st => st) 11 22
    (MachineState.mk 1000 77 0 0 1 2 3 4 5 6 7 8 9 (fun _ => 0)) habi
  exact ⟨habi, h.2.2.2.2.2.2.2.2.2.2.2.2.1, h.2.2.2.2.2.2.2.2.2.2.2.2.2⟩

/-- C5: the context round-trip preserves the caller's state. Provided
`tinygo_scanstack` honors the calling convention, after
`tinygo_scanCurrentStack` runs, every callee-saved register `$s0`–`$s8`
and the stack pointer hold exactly the values they had before the call,
and control arrives back at the caller's return address (the exact next
instruction of the caller); only caller-saved registers (`$ra`, `$a0`,
`$a1`) may differ. -/
theorem scanCurrentStack_round_trip
    (scan : MachineState → MachineState) (scanRet jalrRet : Int)
    (s : MachineState) (habi : ScanstackABI scan) :
    (tinygo_scanCurrentStack scan scanRet jalrRet s).finalState.sp = s.sp ∧
    (tinygo_scanCurrentStack scan scanRet jalrRet s).finalState.s0 = s.s0 ∧
    (tinygo_scanCurrentStack scan scanRet jalrRet s).finalState.s1 = s.s1 ∧
    (tinygo_scanCurrentStack scan scanRet jalrRet s).finalState.s2 = s.s2 ∧
    (tinygo_scanCurrentStack scan scanRet jalrRet s).finalState.s3 = s.s3 ∧
    (tinygo_scanCurrentStack scan scanRet jalrRet s).finalState.s4 = s.s4 ∧
    (tinygo_scanCurrentStack scan scanRet jalrRet s).finalState.s5 = s.s5 ∧
    (tinygo_scanCurrentStack scan scanRet jalrRet s).finalState.s6 = s.s6 ∧
    (tinygo_scanCurrentStack scan scanRet jalrRet s).finalState.s7 = s.s7 ∧
    (tinygo_scanCurrentStack scan scanRet jalrRet s).finalState.s8 = s.s8 ∧
    (tinygo_scanCurrentStack scan scanRet jalrRet s).target = s.ra := by
  obtain ⟨hr1, _, _, _, _, _, _, _, _, _⟩ := pushFrame_reads s
  obtain ⟨hsp, hs0, hs1, hs2, hs3, hs4, hs5, hs6, hs7, hs8, hmem⟩ :=
    habi (scanCallState s scanRet)
  have hcs : (scanCallState s scanRet).sp = s.sp - 40 := rfl
  refine ⟨?_, hs0, hs1, hs2, hs3, hs4, hs5, hs6, hs7, hs8, ?_⟩
  · show (scan (scanCallState s scanRet)).sp + 40 = s.sp
    rw [hsp, hcs]
    omega
  · show (scan (scanCallState s scanRet)).mem
      ((scan (scanCallState s scanRet)).sp + 36) = s.ra
    rw [hsp, hcs, hmem (s.sp - 40 + 36) (by rw [hcs]; omega)]
    exact hr1

/-- Witness for C5 at a concrete input: with identity scan behavior and a
concrete caller whose canary registers are 1..9, every callee-saved
register and the stack pointer come back unchanged and control returns to
address 88. -/
theorem scanCurrentStack_round_trip_witness :
    ScanstackABI (fun st => st) ∧
    ((tinygo_scanCurrentStack (fun st => st) 33 44
        (MachineState.mk 2000 88 0 0 1 2 3 4 5 6 7 8 9 (fun _ => 0))).finalState.s0
      = 1 ∧
    (tinygo_scanCurrentStack (fun st => st) 33 44
        (MachineState.mk 2000 88 0 0 1 2 3 4 5 6 7 8 9 (fun _ => 0))).finalState.sp
      = 2000 ∧
    (tinygo_scanCurrentStack (fun st => st) 33 44
        (MachineState.mk 2000 88 0 0 1 2 3 4 5 6 7 8 9 (fun _ => 0))).target
      = 88) := by
  have habi : ScanstackABI (fun st => st) :=
    fun st => ⟨rfl, rfl, rfl, rfl, rfl, rfl, rfl, rfl, rfl, rfl,
      fun _ _ => rfl⟩
  have h := scanCurrentStack_round_trip (fun st => st) 33 44
    (MachineState.mk 2000 88 0 0 1 2 3 4 5 6 7 8 9 (fun _ => 0)) habi
  exact ⟨habi, h.2.1, h.1, h.2.2.2.2.2.2.2.2.2.2⟩

/-- C6: `tinygo_longjmp` never returns to its caller. For every machine
state it loads the new stack pointer from offset 0 of the argument block
and the resume address from offset 4, installs them, and jumps to the
resume address; no return linkage is saved (`$ra` is left untouched, and
the jump target is determined solely by the argument block — replacing the
caller's return address changes nothing), so control never comes back to
the instruction after the call unless the block itself points there. -/
theorem longjmp_never_returns (s : MachineState) :
    (tinygo_longjmp s).target = s.mem (s.a0 + 4) ∧
    (tinygo_longjmp s).finalState.sp = s.mem s.a0 ∧
    (tinygo_longjmp s).finalState.a1 = s.mem (s.a0 + 4) ∧
    (tinygo_longjmp s).finalState.ra = s.ra ∧
    (∀ r : Int, (tinygo_longjmp { s with ra := r }).target
      = s.mem (s.a0 + 4)) ∧
    (∀ r : Int, s.mem (s.a0 + 4) ≠ r →
      (tinygo_longjmp { s with ra := r }).target ≠ r) :=
  ⟨rfl, rfl, rfl, rfl, fun _ => rfl, fun _ h => h⟩

/-- Witness for C6 at a concrete input: with an argument block at address
0 holding stack pointer 111 and resume address 222, and caller return
address 99, the jump goes to 222, not back to 99. -/
theorem longjmp_never_returns_witness :
    (tinygo_longjmp (MachineState.mk 5 99 0 0 0 0 0 0 0 0 0 0 0
        (fun a => if a = 0 then 111 else if a = 4 then 222 else 0))).target
      = 222 ∧
    ((MachineState.mk 5 99 0 0 0 0 0 0 0 0 0 0 0
        (fun a => if a = 0 then 111 else if a = 4 then 222 else 0)).mem
        ((MachineState.mk 5 99 0 0 0 0 0 0 0 0 0 0 0
          (fun a => if a = 0 then 111 else if a = 4 then 222 else 0)).a0 + 4)
      ≠ 99) ∧
    (tinygo_longjmp { MachineState.mk 5 99 0 0 0 0 0 0 0 0 0 0 0
        (fun a => if a = 0 then 111 else if a = 4 then 222 else 0) with
        ra := 99 }).target ≠ 99 := by
  have h := longjmp_never_returns (MachineState.mk 5 99 0 0 0 0 0 0 0 0 0 0 0
    (fun a => if a = 0 then 111 else if a = 4 then 222 else 0))
  refine ⟨?_, by decide, h.2.2.2.2.2 99 (by decide)⟩
  rw [h.1]
  decide

/-- C8: for every uint8 pin value, `GetADCChannel` returns an error
exactly when the pin is below `ADC0`; otherwise it returns channel
`pin - ADC0` with no error, for every pin up to 255 — there is no
upper-bound check. And `Get` on a pin below `ADC0` silently returns 0
instead of reporting the error, whatever the hardware would sample. -/
theorem adc_get_error_edge (sample : Nat → Nat) (pin : Nat)
    (hp : pin < 256) :
    (GetADCChannel pin = none ↔ pin < ADC0) ∧
    (ADC0 ≤ pin → GetADCChannel pin = some (pin - ADC0)) ∧
    (pin < ADC0 → adcGet sample pin = 0) := by
  by_cases h : pin < ADC0
  · have hnone : GetADCChannel pin = none := by
      unfold GetADCChannel
      rw [if_pos h]
    refine ⟨by simp [hnone, h], fun hc => absurd hc (by omega), fun _ => ?_⟩
    unfold adcGet
    rw [hnone]
  · have hsome : GetADCChannel pin = some (pin - ADC0) := by
      unfold GetADCChannel
      rw [if_neg h]
    exact ⟨by simp [hsome, h], fun _ => hsome, fun hc => absurd hc h⟩

/-- Witness for C8 at a concrete input: pin 3 is below ADC0, so the
channel lookup errors and `Get` returns 0; pin 255 is at the top of the
uint8 range and still succeeds with channel 229, exercising the absent
upper bound. -/
theorem adc_get_error_edge_witness :
    (3 : Nat) < 256 ∧ GetADCChannel 3 = none ∧
    adcGet (fun _ => 7) 3 = 0 ∧
    (255 : Nat) < 256 ∧ GetADCChannel 255 = some 229 := by
  have h3 := adc_get_error_edge (fun _ => 7) 3 (by decide)
  have h255 := adc_get_error_edge (fun _ => 7) 255 (by decide)
  refine ⟨by decide, h3.1.mpr (by decide), h3.2.2 (by decide), by decide, ?_⟩
  exact h255.2.1 (by decide)

/-- C9 counterexample: channel 230 is a representable `ADCChannel` (a
uint8), and its `Pin()` wraps: (230 + 26) mod 256 = 0, a pin below
`ADC0`, so `GetADCChannel` on the returned pin yields an error, not the
channel 230 again — the round-trip of the claim fails. -/
theorem adc_roundtrip_counterexample :
    (ADCChannelPin 230).2 = false ∧
    (ADCChannelPin 230).1 = 0 ∧
    GetADCChannel (ADCChannelPin 230).1 = none ∧
    ¬GetADCChannel (ADCChannelPin 230).1 = some 230 := by
  refine ⟨rfl, by decide, by decide, by decide⟩

/-- C9 amended: `Pin()` never returns an error and returns
`(c + ADC0) mod 256` (uint8 addition wraps); the round-trip
`GetADCChannel (c.Pin())` yields `c` again for every channel `c` with
`c + ADC0 < 256` (in particular for the documented channels 0–4), and
conversely for every uint8 pin `p` with `p ≥ ADC0`, `GetADCChannel`
followed by `Pin()` returns `p`. -/
theorem adc_roundtrip_amended (c : Nat) (hc : c < 256) :
    (ADCChannelPin c).2 = false ∧
    (ADCChannelPin c).1 = (c + ADC0) % 256 ∧
    (c + ADC0 < 256 → GetADCChannel (ADCChannelPin c).1 = some c) ∧
    (∀ p : Nat, ADC0 ≤ p → p < 256 →
      GetADCChannel p = some (p - ADC0) ∧
      (ADCChannelPin (p - ADC0)).1 = p) := by
  refine ⟨rfl, rfl, ?_, ?_⟩
  · intro hlt
    unfold ADCChannelPin GetADCChannel ADC0
    unfold ADC0 at hlt
    rw [Nat.mod_eq_of_lt hlt, if_neg (by omega)]
    simp
  · intro p hge hlt
    unfold ADCChannelPin GetADCChannel ADC0
    unfold ADC0 at hge
    constructor
    · rw [if_neg (by omega)]
    · rw [show p - 26 + 26 = p by omega, Nat.mod_eq_of_lt hlt]

/-- Witness for C9 amended at a concrete input: channel 2 maps to pin 28
and back to channel 2. -/
theorem adc_roundtrip_amended_witness :
    (2 : Nat) < 256 ∧ GetADCChannel (ADCChannelPin 2).1 = some 2 :=
  ⟨by decide, (adc_roundtrip_amended 2 (by decide)).2.2.1 (by decide)⟩

/-- Registering a sequence of (non-nil) cleanups one by one builds the
slice holding them, wrapped as `some`, in registration order. -/
theorem cleanup_foldl (α : Type) (fs : List α) (acc : List (Option α)) :
    fs.foldl (fun l f => Cleanup l (some f)) acc
      = acc ++ fs.map some := by
  induction fs generalizing acc with
  | nil => simp
  | cons f rest ih =>
    simp only [List.foldl_cons, List.map_cons]
    rw [ih]
    unfold Cleanup
    simp

/-- On a slice of real (non-nil) cleanup functions, the loop calls every
element of the reversed slice in order and consumes the whole slice. -/
theorem runCleanupGo_all_some (α : Type) (gs : List α) :
    runCleanupGo (gs.map some) = (gs, []) := by
  induction gs with
  | nil => rfl
  | cons g rest ih =>
    unfold runCleanupGo
    simp only [List.map_cons]
    rw [ih]

/-- C10: cleanups run in LIFO order and are consumed. For every sequence
of functions registered through `Cleanup` starting from an empty slice,
`runCleanup` calls them in exactly reverse registration order (each
exactly once — the call list is precisely the reversed registration
list), and leaves the `cleanups` slice empty. -/
theorem runCleanup_lifo (α : Type) (fs : List α) :
    runCleanup (fs.foldl (fun l f => Cleanup l (some f)) [])
      = (fs.reverse, []) := by
  rw [cleanup_foldl]
  unfold runCleanup
  simp only [List.nil_append]
  rw [show (fs.map some).reverse = fs.reverse.map some by
    simp [List.map_reverse]]
  rw [runCleanupGo_all_some]
  rfl

end TinyGo
